import Mathlib

/-!
# Verification of the harmonic companion engine

Shallow embedding of the music-theory core of the repository
(chord dictionary, scale dictionary, chord detector, key detector,
modal context detector, suggestion engine, MIDI exporter) and proofs
of the specification claims about it.

Conventions of the embedding:
* JS strings are Lean `String`s; `split(' ')` / `split(/\s+/)` / `join(' ')`
  are modelled at the character-list level (`List.splitOnP`, `List.intercalate`).
  Whitespace is modelled as the space character, the only whitespace
  occurring in chord labels.
* JS numbers holding scores are modelled as `ℚ` (the exact values of the
  score arithmetic; all comparisons performed by the code are far outside
  double rounding error for the list sizes involved).
* JS `array.sort(comparator)` is stable; it is modelled by the (stable)
  `List.insertionSort`.
* Object property tables are modelled as association lists in insertion
  order; reverse value lookup (`getIntervalsForQuality`) is a first-match
  scan exactly as in the source.
-/

namespace HarmonicCompanion

/- The Batteries rational-number operations are `@[irreducible]`, which
blocks `decide` on the concrete score computations below; restore the
default transparency for this file. -/
attribute [local semireducible] Rat.add Rat.mul Rat.inv Rat.sub Rat.ofScientific

set_option maxRecDepth 100000

/-! ## String helpers: the JS split/join operations used by the source -/

/-- JS `s.split(' ')`: split on every single space, keeping empty pieces. -/
def jsSplit (s : String) : List String :=
  (s.toList.splitOnP (· == ' ')).map (fun l => String.mk l)

/-- JS `s.trim().split(/\s+/)`: the non-empty maximal runs between spaces
(whitespace in chord labels is always the space character). -/
def wsTokens (s : String) : List String :=
  ((s.toList.splitOnP (· == ' ')).filter (· ≠ [])).map (fun l => String.mk l)

/-- JS `parts.join(' ')`. -/
def jsJoin (parts : List String) : String :=
  String.mk ([' '].intercalate (parts.map String.toList))

/-- JS `s.includes(sub)` (substring containment). -/
def jsIncludes (s sub : String) : Bool :=
  s.toList.tails.any (fun t => sub.toList.isPrefixOf t)

/-- JS `s.toLowerCase()` (ASCII case folding suffices for chord labels). -/
def jsLower (s : String) : String :=
  String.mk (s.toList.map Char.toLower)

/-! ## Pitch utilities (`note-utils.js`) and the static tables -/

def NOTE_NAMES : List String :=
  ["C", "C#", "D", "D#", "E", "F"] ++ ["F#", "G", "G#", "A", "A#", "B"]

/-- `getNoteNumber` / `NOTE_NAMES.indexOf(name)`; JS `-1` becomes `none`. -/
def noteToPC (name : String) : Option Nat :=
  NOTE_NAMES.findIdx? (· == name)

/-- `CHORD_INTERVALS` from `chord-dictionary.js`, in insertion order.
Keys are the comma-joined interval strings; since comma-joining is
injective on interval lists they are modelled as the lists themselves. -/
def CHORD_INTERVALS : List (List Nat × String) :=
  [ ([0,4,7], "Major"),
    ([0,3,7], "Minor"),
    ([0,3,6], "Diminished"),
    ([0,4,8], "Augmented"),
    ([0,4,7,12], "Major"),
    ([0,3,7,12], "Minor"),
    ([0,4,7,11], "Maj7"),
    ([0,4,7,10], "Dom7"),
    ([0,3,7,10], "Min7"),
    ([0,3,7,11], "MinMaj7"),
    ([0,3,6,10], "m7b5 (Half-Dim)"),
    ([0,3,6,9], "Dim7"),
    ([0,5,7], "Sus4"),
    ([0,2,7], "Sus2"),
    ([0,5,7,10], "7sus4"),
    ([0,7], "5"),
    ([0,4,7,9], "Maj6"),
    ([0,3,7,9], "Min6"),
    ([0,4,7,14], "Add9"),
    ([0,3,7,14], "mAdd9") ]

/-- `getChordName(intervals)`: key lookup `CHORD_INTERVALS[intervals.join(',')]`. -/
def getChordName (intervals : List Nat) : Option String :=
  (CHORD_INTERVALS.find? (fun e => e.1 == intervals)).map (·.2)

/-- Reverse value lookup used by `key-detector.js` (inline loop) and by
`suggestion-engine.js` (`getIntervalsForQuality`): first entry whose value
is the quality. -/
def getIntervalsForQuality (quality : String) : Option (List Nat) :=
  (CHORD_INTERVALS.find? (fun e => e.2 == quality)).map (·.1)

/-- `SCALES` from `scale-dictionary.js`, in insertion order. -/
def SCALES : List (String × List Nat) :=
  [ ("Major", [0,2,4,5,7,9,11]),
    ("Minor", [0,2,3,5,7,8,10]),
    ("Harmonic Minor", [0,2,3,5,7,8,11]),
    ("Melodic Minor", [0,2,3,5,7,9,11]),
    ("Ionian", [0,2,4,5,7,9,11]),
    ("Dorian", [0,2,3,5,7,9,10]),
    ("Phrygian", [0,1,3,5,7,8,10]),
    ("Lydian", [0,2,4,6,7,9,11]),
    ("Mixolydian", [0,2,4,5,7,9,10]),
    ("Aeolian", [0,2,3,5,7,8,10]),
    ("Locrian", [0,1,3,5,6,8,10]),
    ("Pentatonic Major", [0,2,4,7,9]),
    ("Pentatonic Minor", [0,3,5,7,10]),
    ("Blues", [0,3,5,6,7,10]),
    ("Blues Minor", [0,3,5,6,7,10]),
    ("Blues Major", [0,2,3,4,7,9]),
    ("Double Harmonic Major", [0,1,4,5,7,8,11]),
    ("Phrygian Dominant", [0,1,4,5,7,8,10]),
    ("Hungarian Minor", [0,2,3,6,7,8,11]),
    ("Whole Tone", [0,2,4,6,8,10]),
    ("Diminished HW", [0,1,3,4,6,7,9,10]),
    ("Insen", [0,1,5,7,10]) ]

/-- `SCALES[name]` property access. -/
def scaleLookup (name : String) : Option (List Nat) :=
  (SCALES.find? (fun e => e.1 == name)).map (·.2)

/-! ## Chord detector (`harmonic-analyzer.js`) -/

/-- Ascending numeric sort, the model of `.sort((a, b) => a - b)`. -/
def ascSort (l : List Nat) : List Nat :=
  l.insertionSort (· ≤ ·)

/-- `[...new Set(activeNotes.map(n => n % 12))].sort((a,b) => a-b)`.
The `Set` deduplication order is irrelevant because the result is sorted. -/
def pitchClassesOf (notes : List Nat) : List Nat :=
  ascSort (notes.map (· % 12)).dedup

/-- The interval set of sorted pitch classes `pcs` relative to a candidate
root: `pc - root`, lifted by 12 when negative, sorted ascending. -/
def intervalsFromRoot (pcs : List Nat) (root : Nat) : List Nat :=
  ascSort (pcs.map (fun pc => (pc + 12 - root) % 12))

/-- The root-candidate loop of `detectChord`: try each pitch class in
ascending order as root, return the first dictionary hit. -/
def detectChordLoop (pcs : List Nat) : List Nat → Option String
  | [] => none
  | root :: rest =>
    match getChordName (intervalsFromRoot pcs root) with
    | some quality => some (NOTE_NAMES.getD root "" ++ " " ++ quality)
    | none => detectChordLoop pcs rest

/-- `detectChord(activeNotes)` from `harmonic-analyzer.js`. -/
def detectChord (activeNotes : List Nat) : Option String :=
  if activeNotes.length < 3 then none
  else detectChordLoop (pitchClassesOf activeNotes) (pitchClassesOf activeNotes)

/-! ## Key detector (`key-detector.js`) -/

/-- One history entry of the `KeyDetector` ring buffer.  The source also
stores a `timestamp: Date.now()` which no computation ever reads; it is
omitted from the embedding. -/
structure KDEntry where
  notes : List Nat
  root : Nat
deriving DecidableEq, Repr

/-- The parsing part of `KeyDetector.addChord`: label → history entry.
`split(' ')` (the plain split), root via `getNoteNumber`, quality via the
reverse scan of `CHORD_INTERVALS`, then absolute pitch classes. -/
def kdParse (chordName : String) : Option KDEntry :=
  if chordName = "" then none
  else
    match jsSplit chordName with
    | rootName :: rest =>
      if rest.length = 0 then none
      else
        let qualityName := jsJoin rest
        match noteToPC rootName with
        | none => none
        | some rootNote =>
          match getIntervalsForQuality qualityName with
          | none => none
          | some intervals =>
            some ⟨intervals.map (fun i => (rootNote + i) % 12), rootNote⟩
    | [] => none

/-- `KeyDetector.addChord`: push the parsed entry, evict the oldest entry
beyond `maxHistory = 10`; no-op when parsing fails. -/
def kdAddChord (st : List KDEntry) (chordName : String) : List KDEntry :=
  match kdParse chordName with
  | none => st
  | some e => if (st ++ [e]).length > 10 then (st ++ [e]).tail else st ++ [e]

/-- One key estimate `{root, scale, score}`. -/
structure KeyCand where
  root : String
  scale : String
  score : ℚ
deriving DecidableEq, Repr

/-- Descending-score order used by `detect`'s comparator `b.score - a.score`. -/
def kdLE (a b : KeyCand) : Prop := b.score ≤ a.score

instance : DecidableRel kdLE := fun a b => inferInstanceAs (Decidable (b.score ≤ a.score))

instance : IsTotal KeyCand kdLE := ⟨fun a b => le_total b.score a.score⟩

instance : IsTrans KeyCand kdLE := ⟨fun _ _ _ h₁ h₂ => le_trans h₂ h₁⟩

/-- The score/totalNotes accumulation loop of `detect` over the history. -/
def kdTally (st : List KDEntry) (scaleNotes : List Nat) : Nat × Nat :=
  st.foldl
    (fun p c =>
      c.notes.foldl
        (fun q note => ((if scaleNotes.contains note then q.1 + 1 else q.1), q.2 + 1)) p)
    (0, 0)

/-- The candidate built by `detect` for one `(root, scale)` pair. -/
def kdCandidate (st : List KDEntry) (root : Nat) (e : String × List Nat) : KeyCand :=
  let scaleNotes := e.2.map (fun i => (root + i) % 12)
  let t := kdTally st scaleNotes
  let normalizedScore : ℚ := if t.2 > 0 then (t.1 : ℚ) / (t.2 : ℚ) else 0
  let finalScore :=
    match st.getLast? with
    | some lastChord => if lastChord.root = root then normalizedScore + 15/100 else normalizedScore
    | none => normalizedScore
  ⟨NOTE_NAMES.getD root "", e.1, finalScore⟩

/-- The full 12 × |SCALES| candidate list of `detect`, in loop order. -/
def kdCandidates (st : List KDEntry) : List KeyCand :=
  ((List.range 12).map (fun root => SCALES.map (kdCandidate st root))).flatten

/-- `KeyDetector.detect`: empty history gives `[]`; otherwise score all
candidates, sort descending (stable) and return the top 5. -/
def kdDetect (st : List KDEntry) : List KeyCand :=
  if st.length = 0 then []
  else ((kdCandidates st).insertionSort kdLE).take 5

/-- The operations a caller can perform on one `KeyDetector` instance. -/
inductive KDOp where
  | add (label : String)
  | reset
deriving DecidableEq, Repr

/-- State transition of the detector: `addChord` or `reset`. -/
def kdStep (st : List KDEntry) : KDOp → List KDEntry
  | .add label => kdAddChord st label
  | .reset => []

/-- A fresh detector (`constructor`) driven through a sequence of calls. -/
def kdRun (ops : List KDOp) : List KDEntry :=
  ops.foldl kdStep []

/-! ## Modal context detector (`modal-context.js`) -/

def MODES : List String :=
  ["Ionian", "Dorian", "Phrygian", "Lydian", "Mixolydian", "Aeolian", "Locrian"]

/-- Parsed chord `{root, quality, rootPC}` (`parseChord` in
`modal-context.js`, `parseChordOrKey` in `suggestion-engine.js` —
the two functions are textually identical). -/
structure ParsedChord where
  root : String
  quality : String
  rootPC : Nat
deriving DecidableEq, Repr

/-- `parseChord(str)`: trim/split on whitespace, need ≥ 2 parts, root must
be a sharp-spelled note name; quality is the rest re-joined. -/
def parseChord (s : String) : Option ParsedChord :=
  match wsTokens s with
  | root :: rest =>
    if rest.length = 0 then none
    else
      match noteToPC root with
      | none => none
      | some pc => some ⟨root, jsJoin rest, pc⟩
  | [] => none

/-- A diatonic triad `{rootPC, quality, name}` built on a scale degree. -/
structure TriadInfo where
  rootPC : Nat
  quality : String
  name : String
deriving DecidableEq, Repr

/-- `buildTriadOnDegree(scaleIntervals, tonicPC, degreeIndex)`: root, third
and fifth at degrees `i, i+2, i+4` (mod scale length), re-normalized to the
degree root ((x − root + 12) % 12; table intervals are < 12 so the Nat form
below coincides with the JS arithmetic), sorted, then a dictionary lookup. -/
def buildTriadOnDegree (scaleIntervals : List Nat) (tonicPC degreeIndex : Nat) :
    Option TriadInfo :=
  if scaleIntervals.length < 7 then none
  else
    let len := scaleIntervals.length
    let rootInterval := scaleIntervals.getD degreeIndex 0
    let thirdInterval := scaleIntervals.getD ((degreeIndex + 2) % len) 0
    let fifthInterval := scaleIntervals.getD ((degreeIndex + 4) % len) 0
    let intervals := ascSort
      [0, (thirdInterval + 12 - rootInterval) % 12, (fifthInterval + 12 - rootInterval) % 12]
    let rootPC := (tonicPC + rootInterval) % 12
    match getChordName intervals with
    | some quality => some ⟨rootPC, quality, NOTE_NAMES.getD rootPC "" ++ " " ++ quality⟩
    | none => none

/-- The 7 diatonic triads of a tonic+scale (degrees 0..6, `null`s dropped). -/
def diatonicTriads (scaleIntervals : List Nat) (tonicPC : Nat) : List TriadInfo :=
  (List.range 7).filterMap (buildTriadOnDegree scaleIntervals tonicPC)

/-- A modal estimate `{tonic, mode, confidence}`. -/
structure ModalResult where
  tonic : String
  mode : String
  confidence : ℚ
deriving DecidableEq, Repr

/-- JS `Math.round(x * 100) / 100` on the exact rational value. -/
def round2 (q : ℚ) : ℚ := (⌊q * 100 + 1/2⌋ : ℚ) / 100

/-- The tonic × mode combinations in the loop order of
`detectModeFromChords` (tonic-major, mode-minor). -/
def allCombos : List (Nat × String) :=
  ((List.range 12).map (fun t => MODES.map (fun m => (t, m)))).flatten

/-- The match count of one tonic+mode combination against the parsed history. -/
def comboScore (parsed : List ParsedChord) (c : Nat × String) : Nat :=
  let si := (scaleLookup c.2).getD []
  parsed.countP (fun ch =>
    (diatonicTriads si c.1).any (fun dc => dc.rootPC == ch.rootPC && dc.quality == ch.quality))

/-- The `{tonic, mode, confidence}` record stored when a combination becomes
the current best. -/
def comboResult (parsed : List ParsedChord) (c : Nat × String) : ModalResult :=
  let score := comboScore parsed c
  let confidence : ℚ := if parsed.length > 0 then (score : ℚ) / (parsed.length : ℚ) else 0
  ⟨NOTE_NAMES.getD c.1 "", c.2, round2 confidence⟩

/-- The replacement test of the best-tracking loop:
`score > bestScore || (score === bestScore && bestResult && confidence >
bestResult.confidence)` — the fresh, unrounded confidence against the
stored, rounded one. -/
def comboReplace (parsed : List ParsedChord) (s : Int × Option ModalResult) (score : Nat) :
    Bool :=
  (s.1 < (score : Int)) ||
    (((score : Int) == s.1) &&
      (match s.2 with
       | some br => decide (br.confidence <
           (if parsed.length > 0 then (score : ℚ) / (parsed.length : ℚ) else 0))
       | none => false))

/-- One iteration of the best-tracking loop of `detectModeFromChords`:
replace the best when `score > bestScore`, or on a score tie when the fresh
(unrounded) confidence beats the stored (rounded) one. -/
def comboStep (parsed : List ParsedChord) (s : Int × Option ModalResult) (c : Nat × String) :
    Int × Option ModalResult :=
  match scaleLookup c.2 with
  | none => s
  | some si =>
    if si.length < 7 then s
    else if comboReplace parsed s (comboScore parsed c) then
      ((comboScore parsed c : Int), some (comboResult parsed c))
    else s

/-- `detectModeFromChords(chordHistory)`. -/
def detectModeFromChords (history : List String) : Option ModalResult :=
  if history.length = 0 then none
  else if (history.filterMap parseChord).length = 0 then none
  else if (allCombos.foldl (comboStep (history.filterMap parseChord)) (-1, none)).1 > 0 then
    (allCombos.foldl (comboStep (history.filterMap parseChord)) (-1, none)).2
  else none

/-! ## Suggestion engine (`suggestion-engine.js`): the parts the claims use -/

/-- `parseChordOrKey` is the same function as `parseChord`. -/
def parseChordOrKey : String → Option ParsedChord := parseChord

def QUALITY_DEPENDENT_EXTENSIONS : List String :=
  ["Maj7", "min7", "#11", "b9", "b6"]

def MODAL_STACK_EXTENSIONS : List String :=
  ["add2", "add4", "add6", "add9", "add11", "add13", "no3", "no5"]

/-- One interval-completion suggestion `{name, interval, result}`. -/
structure IntervalSugg where
  name : String
  interval : String
  result : String
deriving DecidableEq, Repr

def INTERVAL_ADDITIONS : List (Nat × String) :=
  [(3, "Minor 3rd"), (4, "Major 3rd"), (7, "Perfect 5th"), (10, "Minor 7th"), (11, "Major 7th")]

/-- The chord prediction inside `suggestIntervals`: first candidate root of
the deduplicated sorted pitch classes whose interval key is in the table
(same loop as `detectChord`), run only when 3+ notes and 3+ pitch classes
result; otherwise the placeholder `—`. -/
def predictResult (hypothetical : List Nat) : String :=
  if hypothetical.length ≥ 3 then
    let pcs := pitchClassesOf hypothetical
    if pcs.length ≥ 3 then
      match detectChordLoop pcs pcs with
      | some name => name
      | none => "—"
    else "—"
  else "—"

/-- `suggestIntervals(activeNotes)` (array input; a `Set` input is
`Array.from`-normalized by the source and all uses below are
order-insensitive). -/
def suggestIntervals (notes : List Nat) : List IntervalSugg :=
  if notes.length = 0 || notes.length ≥ 3 then []
  else
    let sorted := ascSort notes
    let lowest := sorted.headD 0
    INTERVAL_ADDITIONS.filterMap (fun iv =>
      let newNote := lowest + iv.1
      if notes.contains newNote || notes.contains (newNote % 12 + (lowest / 12) * 12) then
        none
      else
        let hypothetical := ascSort (sorted ++ [newNote])
        some ⟨"Add " ++ NOTE_NAMES.getD (newNote % 12) "", "+" ++ toString iv.1,
              predictResult hypothetical⟩)

/-- Chord metadata `{noteNames, midiNotes, fingering}`. -/
structure ChordMeta where
  noteNames : List String
  midiNotes : List Nat
  fingering : List Nat
deriving DecidableEq, Repr

/-- `getChordMetadata(chordName, octave = 4)`. -/
def getChordMetadata (chordName : String) (octave : Nat := 4) : Option ChordMeta :=
  match parseChordOrKey chordName with
  | none => none
  | some parsed =>
    match getIntervalsForQuality parsed.quality with
    | none => none
    | some intervals =>
      let baseNote := parsed.rootPC + (octave + 1) * 12
      let midiNotes := intervals.map (baseNote + ·)
      let noteNames := midiNotes.map (fun n => NOTE_NAMES.getD (n % 12) "")
      let fingering :=
        if midiNotes.length = 3 then [1, 3, 5]
        else if midiNotes.length = 4 then [1, 2, 3, 5]
        else if midiNotes.length = 5 then [1, 2, 3, 4, 5]
        else (List.range midiNotes.length).map (· + 1)
      some ⟨noteNames, midiNotes, fingering⟩

/-- The base-interval resolution of `applyExtension`: direct lookup of the
full quality string, else (for compound labels) the first word, provided
every remaining word is a stackable modal modifier. -/
def resolveBaseIntervals (quality : String) : Option (List Nat) :=
  match getIntervalsForQuality quality with
  | some iv => some iv
  | none =>
    let qualityParts := jsSplit quality
    if qualityParts.length > 1 then
      match getIntervalsForQuality (qualityParts.headD "") with
      | some iv =>
        if qualityParts.tail.all (fun m => MODAL_STACK_EXTENSIONS.contains m) then some iv
        else none
      | none => none
    else none

def VALID_EXTENSIONS : List (String × List String) :=
  [ ("Major", ["Maj7", "Dom7", "Maj6", "Sus4", "Sus2", "Add9", "7sus4"]),
    ("Minor", ["Min7", "MinMaj7", "Min6", "mAdd9"]),
    ("Diminished", ["m7b5 (Half-Dim)", "Dim7"]),
    ("Augmented", []) ]

def knownQualities : List String :=
  ["Maj7", "Dom7", "Min7", "MinMaj7", "m7b5 (Half-Dim)", "Dim7",
   "Sus4", "Sus2", "7sus4", "Maj6", "Min6", "Add9", "mAdd9",
   "Major", "Minor", "Diminished", "Augmented", "5"]

/-- `applyExtension(baseChord, extensionType)`.  The interval-set mutation
performed on the modal path is faithful to the source but does not feed the
returned label, which is assembled from the modifier tokens alone. -/
def applyExtension (baseChord extensionType : String) : Option String :=
  match parseChordOrKey baseChord with
  | none => none
  | some parsed =>
    if extensionType = "" then none
    else
      let intervals? := resolveBaseIntervals parsed.quality
      let isModalVoicing : Bool :=
        match intervals? with
        | some iv => !iv.contains 3 && !iv.contains 4
        | none => false
      if isModalVoicing then
        if QUALITY_DEPENDENT_EXTENSIONS.contains extensionType then none
        else if MODAL_STACK_EXTENSIONS.contains extensionType then
          let modifiers :=
            if jsIncludes parsed.quality " " then jsSplit parsed.quality else [parsed.quality]
          let modifiers' :=
            if modifiers.contains extensionType then modifiers else modifiers ++ [extensionType]
          some (parsed.root ++ " " ++ jsJoin modifiers')
        else
          let allowed? := (VALID_EXTENSIONS.find? (fun e => e.1 == parsed.quality)).map (·.2)
          if (allowed?.getD []).contains extensionType then
            some (parsed.root ++ " " ++ extensionType)
          else if knownQualities.contains extensionType then
            some (parsed.root ++ " " ++ extensionType)
          else none
      else
        let allowed? := (VALID_EXTENSIONS.find? (fun e => e.1 == parsed.quality)).map (·.2)
        if (allowed?.getD []).contains extensionType then
          some (parsed.root ++ " " ++ extensionType)
        else if knownQualities.contains extensionType then
          some (parsed.root ++ " " ++ extensionType)
        else none

/-! ## MIDI exporter (`midi-exporter.js`) -/

def TICKS_PER_BEAT : Nat := 480

def REGISTER_MAP : List (String × Nat) :=
  [("Sub", 1), ("Bass", 2), ("Mid", 3), ("Harmony", 4)]

/-- Export options with the source's destructuring defaults. -/
structure MidiOptions where
  bpm : Nat := 120
  beatsPerChord : Nat := 2
  velocity : Nat := 100
  register : Option String := none
  octave : Option Nat := none
  voicingStyle : String := "Triad"
deriving DecidableEq, Repr

/-- `buildVoicing(chordName, style, octave)`. -/
def buildVoicing (chordName style : String) (octave : Nat) : Option (List Nat) :=
  match getChordMetadata chordName octave with
  | none => none
  | some meta =>
    if meta.midiNotes.length = 0 then none
    else
      let root := meta.midiNotes.headD 0
      if style = "Root Only" then some [root]
      else if style = "Root + 5th" then some [root, root + 7]
      else if style = "Root + 10th" then
        let lower := jsLower chordName
        let isMinor := jsIncludes lower "minor" || jsIncludes lower "min"
        some [root, root + (if isMinor then 15 else 16)]
      else some meta.midiNotes

/-- The while-loop of `writeVLQ`, producing the leading base-128 digits with
the continuation bit set; 5 rounds of fuel cover every 32-bit value the JS
shift arithmetic can handle. -/
def vlqGo : Nat → Nat → List Nat → List Nat
  | 0, _, acc => acc
  | fuel + 1, v, acc => if v = 0 then acc else vlqGo fuel (v / 128) ((v % 128 + 128) :: acc)

/-- `writeVLQ(value)`: MIDI variable-length quantity, most significant
7-bit group first, high bit set on all but the last byte.  The source
clamps negative deltas to 0; all deltas in this model are naturals. -/
def writeVLQ (value : Nat) : List Nat :=
  if value ≤ 127 then [value]
  else vlqGo 5 (value / 128) [value % 128]

/-- `writeUint16` (big-endian). -/
def writeUint16 (value : Nat) : List Nat :=
  [value / 256 % 256, value % 256]

/-- `writeUint32` (big-endian). -/
def writeUint32 (value : Nat) : List Nat :=
  [value / 16777216 % 256, value / 65536 % 256, value / 256 % 256, value % 256]

/-- `buildTempoEvent(bpm)`: `00 FF 51 03` plus
`Math.round(60000000 / bpm)` as three big-endian bytes. -/
def buildTempoEvent (bpm : Nat) : List Nat :=
  let microsecondsPerBeat := (⌊(60000000 : ℚ) / (bpm : ℚ) + 1/2⌋).toNat
  [0, 0xFF, 0x51, 0x03,
   microsecondsPerBeat / 65536 % 256, microsecondsPerBeat / 256 % 256, microsecondsPerBeat % 256]

/-- `buildEndOfTrack()`: `00 FF 2F 00`. -/
def buildEndOfTrack : List Nat := [0, 0xFF, 0x2F, 0x00]

/-- Octave resolution: a known register wins, then an explicit octave,
then 4. -/
def resolveOctave (opts : MidiOptions) : Nat :=
  match opts.register.bind (fun r => (REGISTER_MAP.find? (fun e => e.1 == r)).map (·.2)) with
  | some o => o
  | none => opts.octave.getD 4

/-- The track bytes one chord contributes: indexed note-on loop (the
source's delta expression `(n === 0 && i === 0) ? 0 : (n === 0 ? 0 : 0)`
is 0 in every branch) followed by the indexed note-off loop whose first
iteration carries the chord duration.  Unresolvable chords contribute
nothing (`continue`). -/
def chordBytes (opts : MidiOptions) (oct : Nat) (chordName : String) : List Nat :=
  match buildVoicing chordName opts.voicingStyle oct with
  | none => []
  | some notes =>
    if notes.length = 0 then []
    else
      ((List.range notes.length).map (fun n =>
        writeVLQ 0 ++ [0x90, notes.getD n 0 % 128, opts.velocity % 128])).flatten ++
      ((List.range notes.length).map (fun n =>
        writeVLQ (if n = 0 then opts.beatsPerChord * TICKS_PER_BEAT else 0) ++
          [0x80, notes.getD n 0 % 128, 0])).flatten

/-- The assembled track data: tempo event, per-chord events, end of track. -/
def trackDataOf (progression : List String) (opts : MidiOptions) : List Nat :=
  buildTempoEvent opts.bpm ++
    (progression.map (chordBytes opts (resolveOctave opts))).flatten ++
    buildEndOfTrack

/-- The 14-byte file header `MThd`, length 6, format 0, 1 track, 480 TPB. -/
def fileHeader : List Nat :=
  [0x4D, 0x54, 0x68, 0x64] ++ writeUint32 6 ++ writeUint16 0 ++ writeUint16 1 ++
    writeUint16 TICKS_PER_BEAT

/-- `exportProgressionToMidi(progression, options)`: empty progression gives
the zero-length buffer, otherwise header, `MTrk` chunk header and track. -/
def exportProgressionToMidi (progression : List String) (opts : MidiOptions) : List Nat :=
  if progression.length = 0 then []
  else
    let trackData := trackDataOf progression opts
    fileHeader ++ ([0x4D, 0x54, 0x72, 0x6B] ++ writeUint32 trackData.length) ++ trackData

/-! ## Spec-side definitions

Definitions written from the specification's wording, to be compared with
the embedded source functions in the claim theorems. -/

/-- The lowest active note (`sorted[0]`). -/
def lowestOf (notes : List Nat) : Nat := (ascSort notes).headD 0

/-- The skip condition `suggestIntervals` actually applies to a candidate
`k` semitones above the lowest note: the new note itself, or the note with
the new note's pitch class in the lowest note's octave, is already active. -/
def skipCond (notes : List Nat) (k : Nat) : Prop :=
  lowestOf notes + k ∈ notes ∨
    (lowestOf notes + k) % 12 + (lowestOf notes / 12) * 12 ∈ notes

instance (notes : List Nat) (k : Nat) : Decidable (skipCond notes k) :=
  inferInstanceAs (Decidable (_ ∨ _))

/-- The suggestion entry produced for a non-skipped candidate interval. -/
def specIntervalEntry (notes : List Nat) (k : Nat) : IntervalSugg :=
  ⟨"Add " ++ NOTE_NAMES.getD ((lowestOf notes + k) % 12) "", "+" ++ toString k,
   predictResult (ascSort (ascSort notes ++ [lowestOf notes + k]))⟩

/-- The pitch-class set of a scale built at a candidate root. -/
def scaleSetAt (root : Nat) (si : List Nat) : List Nat :=
  si.map (fun i => (root + i) % 12)

/-- The score the specification ascribes to a `(root, scale)` pair: chord
pitch-class occurrences lying in the scale set, summed over all history
entries, over the total number of occurrences, plus 0.15 exactly when the
most recent entry's root is the candidate root. -/
def specKeyScore (st : List KDEntry) (root : Nat) (si : List Nat) : ℚ :=
  (((st.map (fun ch => (ch.notes.filter (fun n => (scaleSetAt root si).contains n)).length)).sum : Nat) : ℚ)
      / (((st.map (fun ch => ch.notes.length)).sum : Nat) : ℚ)
    + (if (st.getLast?).map (·.root) = some root then 15/100 else 0)

/-- A parsed chord equals (root pitch class and quality) some diatonic
triad of one of the 12 tonics × 7 church modes. -/
def chordMatchesSomeMode (pc : ParsedChord) : Prop :=
  ∃ c ∈ allCombos, ∃ dc ∈ diatonicTriads ((scaleLookup c.2).getD []) c.1,
    dc.rootPC = pc.rootPC ∧ dc.quality = pc.quality

/-- The per-chord event bytes the specification describes: one note-on per
voicing note, each with delta-time 0, then note-offs for the same notes,
the first with delta-time `beatsPerChord × 480`, the rest with delta-time
0; an unresolvable chord contributes nothing. -/
def specChordBlock (opts : MidiOptions) (oct : Nat) (chordName : String) : List Nat :=
  match buildVoicing chordName opts.voicingStyle oct with
  | none => []
  | some [] => []
  | some (n₀ :: rest) =>
    ((n₀ :: rest).map (fun nt => writeVLQ 0 ++ [0x90, nt % 128, opts.velocity % 128])).flatten ++
      (writeVLQ (opts.beatsPerChord * 480) ++ [0x80, n₀ % 128, 0]) ++
      (rest.map (fun nt => writeVLQ 0 ++ [0x80, nt % 128, 0])).flatten

/-- The detector state after feeding "D Minor", "G Major", "C Major" in
that order to a fresh `KeyDetector`. -/
def kdExampleState : List KDEntry :=
  kdAddChord (kdAddChord (kdAddChord [] "D Minor") "G Major") "C Major"

/-! ## Helper lemmas -/

theorem ascSort_sorted (l : List Nat) : (ascSort l).Sorted (· ≤ ·) :=
  List.sorted_insertionSort _ l

theorem ascSort_perm (l : List Nat) : (ascSort l).Perm l :=
  List.perm_insertionSort _ l

/-- Two note lists with permuted pitch-class images produce the same
deduplicated sorted pitch-class list. -/
theorem pitchClassesOf_eq_of_perm {notes₁ notes₂ : List Nat}
    (h : (notes₁.map (· % 12)).Perm (notes₂.map (· % 12))) :
    pitchClassesOf notes₁ = pitchClassesOf notes₂ := by
  unfold pitchClassesOf
  exact List.eq_of_perm_of_sorted
    ((ascSort_perm _).trans ((h.dedup).trans (ascSort_perm _).symm))
    (ascSort_sorted _) (ascSort_sorted _)

/-- A pointwise pitch-class-preserving replacement leaves the pitch-class
image of the list unchanged. -/
theorem forall₂_pc_map_eq : ∀ {l₁ l₂ : List Nat},
    List.Forall₂ (fun a b => a % 12 = b % 12) l₁ l₂ →
    l₂.map (· % 12) = l₁.map (· % 12) := by
  intro l₁ l₂ h
  induction h with
  | nil => rfl
  | cons h _ ih => simp only [List.map_cons, ih, h]

/-! ## Claim C4: invariance of chord detection -/

/-- **C4** — For every note set of size at least 3 whose pitch-class
interval pattern is recognized by the chord table, `detectChord` returns
the same label after transposing any subset of the notes by whole octaves
(modelled as a pointwise pitch-class-preserving replacement `l₂` of `l₁`)
and after any reordering (`l₃` a permutation of `l₂`); in particular
`detectChord [60,64,67] = "C Major"` and
`detectChord [60,64,67,71] = "C Maj7"`. -/
theorem detectChord_invariance :
    (∀ (l₁ l₂ l₃ : List Nat), 3 ≤ l₁.length → (detectChord l₁).isSome →
      List.Forall₂ (fun a b => a % 12 = b % 12) l₁ l₂ → l₃.Perm l₂ →
      detectChord l₃ = detectChord l₁)
    ∧ detectChord [60, 64, 67] = some "C Major"
    ∧ detectChord [60, 64, 67, 71] = some "C Maj7" := by
  refine ⟨?_, by decide, by decide⟩
  intro l₁ l₂ l₃ hlen _ h₁₂ h₃₂
  have hmapeq := forall₂_pc_map_eq h₁₂
  have hperm : (l₃.map (· % 12)).Perm (l₁.map (· % 12)) :=
    (h₃₂.map _).trans (by rw [hmapeq])
  have hpcs : pitchClassesOf l₃ = pitchClassesOf l₁ := pitchClassesOf_eq_of_perm hperm
  have hlen₃ : l₃.length = l₁.length := by rw [h₃₂.length_eq, h₁₂.length_eq]
  unfold detectChord
  rw [hlen₃, hpcs]

/-- Witness for C4: the concrete instance l₁ = [60,64,67] (C major root
position), l₂ = [72,64,67] (root lifted an octave), l₃ = [67,72,64]
(reordered), all detected as "C Major". -/
theorem detectChord_invariance_witness :
    detectChord [67, 72, 64] = detectChord [60, 64, 67] :=
  detectChord_invariance.1 [60, 64, 67] [72, 64, 67] [67, 72, 64]
    (by decide) (by decide)
    (by refine List.Forall₂.cons (by decide) ?_
        refine List.Forall₂.cons (by decide) ?_
        exact List.Forall₂.cons (by decide) List.Forall₂.nil)
    (by decide)

/-! ## Claim C5: short-input contract of chord detection -/

/-- Counterexample to **C5** as stated: `[60, 60, 67]` contains only 2
distinct note numbers, yet `detectChord` does not return none — the raw
length guard of the source counts duplicates, the two distinct pitch
classes 0 and 7 match the power-chord entry and "C 5" is returned. -/
theorem detectChord_two_distinct_counterexample :
    [60, 60, 67].dedup.length = 2 ∧ detectChord [60, 60, 67] = some "C 5" := by
  constructor
  · decide
  · decide

/-- **C5 (amended)** — `detectChord` returns none for every input of raw
length below 3 (duplicates included in the count); an input of 3 notes of
which only 2 are distinct can still produce a chord, e.g.
`[60,60,67] ↦ "C 5"`. -/
theorem detectChord_short_input_amended :
    (∀ l : List Nat, l.length < 3 → detectChord l = none)
    ∧ detectChord [60, 60, 67] = some "C 5" := by
  refine ⟨?_, by decide⟩
  intro l h
  unfold detectChord
  rw [if_pos h]

/-- Witness for C5 (amended): a concrete short input. -/
theorem detectChord_short_input_amended_witness :
    detectChord [60, 64] = none :=
  detectChord_short_input_amended.1 [60, 64] (by decide)

/-! ## Claim C9: key-detector history invariants -/

theorem kdStep_length_le (st : List KDEntry) (op : KDOp) (h : st.length ≤ 10) :
    (kdStep st op).length ≤ 10 := by
  cases op with
  | reset => simp [kdStep]
  | add s =>
    simp only [kdStep, kdAddChord]
    cases kdParse s with
    | none => exact h
    | some e =>
      simp only
      by_cases hgt : (st ++ [e]).length > 10
      · rw [if_pos hgt]
        simp only [List.length_tail, List.length_append, List.length_singleton]
        omega
      · rw [if_neg hgt]
        omega

theorem kdRun_length_le_aux : ∀ (ops : List KDOp) (st : List KDEntry),
    st.length ≤ 10 → (ops.foldl kdStep st).length ≤ 10 := by
  intro ops
  induction ops with
  | nil => intro st h; exact h
  | cons op rest ih => intro st h; exact ih _ (kdStep_length_le st op h)

/-- **C9** — The key-detector history never exceeds 10 entries over any
sequence of `addChord`/`reset` calls; a successful `addChord` at capacity
evicts the oldest entry; a failed parse (or unknown quality) is a no-op;
`reset` empties the history and `detect` after `reset` returns `[]`. -/
theorem keyDetector_history_invariants :
    (∀ ops : List KDOp, (kdRun ops).length ≤ 10)
    ∧ (∀ (st : List KDEntry) (s : String) (e : KDEntry),
        st.length = 10 → kdParse s = some e → kdAddChord st s = st.tail ++ [e])
    ∧ (∀ (st : List KDEntry) (s : String), kdParse s = none → kdAddChord st s = st)
    ∧ (∀ st : List KDEntry, kdStep st .reset = [] ∧ kdDetect (kdStep st .reset) = []) := by
  refine ⟨fun ops => kdRun_length_le_aux ops [] (by simp), ?_, ?_, ?_⟩
  · intro st s e hlen hparse
    simp only [kdAddChord, hparse]
    rw [if_pos (by simp [hlen])]
    cases st with
    | nil => simp at hlen
    | cons a t => simp
  · intro st s hparse
    simp [kdAddChord, hparse]
  · intro st
    exact ⟨rfl, rfl⟩

/-- Witness for C9: at a full 10-entry history, adding "C Major" evicts
the oldest entry and appends the parsed entry. -/
theorem keyDetector_history_invariants_witness :
    kdAddChord (List.replicate 10 ⟨[0], 0⟩) "C Major" =
      (List.replicate 10 (⟨[0], 0⟩ : KDEntry)).tail ++ [⟨[0, 4, 7], 0⟩] :=
  keyDetector_history_invariants.2.1 (List.replicate 10 ⟨[0], 0⟩) "C Major" ⟨[0, 4, 7], 0⟩
    (by decide) (by decide)

/-! ## Claim C6: rejection of quality-dependent extensions on modal voicings -/

/-- Counterexample to **C6** as stated: `Dom7` is a 7th (tonal,
quality-dependent) extension named by the claim, the resolved interval set
of "C Sus2" is `[0,2,7]` (no third, a modal voicing), yet
`applyExtension "C Sus2" "Dom7"` does not return none — `Dom7` is not in
the source's `QUALITY_DEPENDENT_EXTENSIONS` list, so it falls through to
the tolerant known-quality fallback and is accepted. -/
theorem applyExtension_dom7_counterexample :
    resolveBaseIntervals "Sus2" = some [0, 2, 7]
    ∧ applyExtension "C Sus2" "Dom7" = some "C Dom7"
    ∧ "Dom7" ∉ QUALITY_DEPENDENT_EXTENSIONS := by
  refine ⟨by decide, by decide, by decide⟩

/-- **C6 (amended)** — For every base chord whose resolved interval set is
a modal voicing (no minor or major third), `applyExtension` returns none
exactly for the five tokens of `QUALITY_DEPENDENT_EXTENSIONS`
(`Maj7`, `min7`, `#11`, `b9`, `b6`); other tonal labels such as `Dom7` or
`Min7` pass the tolerant fallback.  In particular
`applyExtension "C Sus2" "Maj7" = none`,
`applyExtension "C Major" "Maj7" = "C Maj7"` and
`applyExtension "C Sus2" "Dom7" = "C Dom7"`. -/
theorem applyExtension_modal_reject_amended :
    (∀ (base extType : String) (parsed : ParsedChord) (iv : List Nat),
      parseChordOrKey base = some parsed →
      resolveBaseIntervals parsed.quality = some iv →
      iv.contains 3 = false → iv.contains 4 = false →
      extType ∈ QUALITY_DEPENDENT_EXTENSIONS →
      applyExtension base extType = none)
    ∧ applyExtension "C Sus2" "Maj7" = none
    ∧ applyExtension "C Major" "Maj7" = some "C Maj7"
    ∧ applyExtension "C Sus2" "Dom7" = some "C Dom7" := by
  refine ⟨?_, by decide, by decide, by decide⟩
  intro base extType parsed iv hparse hres h3 h4 hmem
  have hne : extType ≠ "" := by
    simp only [QUALITY_DEPENDENT_EXTENSIONS, List.mem_cons, List.not_mem_nil, or_false] at hmem
    rcases hmem with h | h | h | h | h <;> subst h <;> decide
  have hcontains : QUALITY_DEPENDENT_EXTENSIONS.contains extType = true := by
    simp only [QUALITY_DEPENDENT_EXTENSIONS, List.mem_cons, List.not_mem_nil, or_false] at hmem
    rcases hmem with h | h | h | h | h <;> subst h <;> decide
  unfold applyExtension
  rw [hparse]
  have h3' : 3 ∉ iv := by simpa using h3
  have h4' : 4 ∉ iv := by simpa using h4
  simp [hres, hne, h3', h4', hmem]

/-- Witness for C6 (amended): the rejection instantiated at "C Sus2" and
"Maj7". -/
theorem applyExtension_modal_reject_amended_witness :
    applyExtension "C Sus2" "Maj7" = none :=
  applyExtension_modal_reject_amended.1 "C Sus2" "Maj7" ⟨"C", "Sus2", 0⟩ [0, 2, 7]
    (by decide) (by decide) (by decide) (by decide) (by decide)

/-! ## Claim C8: interval suggestions -/

theorem filterMap_boolCond {α β : Type} (c : α → Bool) (f : α → β) (l : List α) :
    l.filterMap (fun a => if c a then none else some (f a)) =
      (l.filter (fun a => !(c a))).map f := by
  induction l with
  | nil => rfl
  | cons a t ih => cases h : c a <;> simp [h, ih]

/-- Counterexample to **C8** as stated: with the two distinct active notes
`[48, 63]`, the `+3` candidate lands on pitch class 3, which is already
among the active pitch classes (63 mod 12 = 3), so the claim requires the
candidate to be skipped — but the source only tests concrete note numbers
(the new note itself and its copy in the lowest note's octave), so an
entry for "+3" is produced anyway. -/
theorem suggestIntervals_skip_counterexample :
    [48, 63].dedup.length = 2
    ∧ (48 + 3) % 12 ∈ [48, 63].map (· % 12)
    ∧ "+3" ∈ (suggestIntervals [48, 63]).map (fun s => s.interval) := by
  refine ⟨by decide, by decide, by decide⟩

/-- **C8 (amended)** — For every input of 1 or 2 active notes,
`suggestIntervals` walks the candidate intervals +3, +4, +7, +10, +11
above the lowest note in exactly that order and skips a candidate exactly
when the resulting concrete note — or the note with the same pitch class
in the lowest note's octave — is already active (a note-number test, not
a pitch-class test); every surviving candidate reports the chord predicted
from the hypothetical note set or the placeholder "—".  In particular
`suggestIntervals [60,64]` contains the entry (+7, "C Major"). -/
theorem suggestIntervals_amended :
    (∀ notes : List Nat, notes.length = 1 ∨ notes.length = 2 →
      suggestIntervals notes =
        (INTERVAL_ADDITIONS.filter (fun iv => !(decide (skipCond notes iv.1)))).map
          (fun iv => specIntervalEntry notes iv.1))
    ∧ ⟨"Add G", "+7", "C Major"⟩ ∈ suggestIntervals [60, 64] := by
  refine ⟨?_, by decide⟩
  intro notes hlen
  have hstep : suggestIntervals notes = INTERVAL_ADDITIONS.filterMap (fun iv =>
      if notes.contains (lowestOf notes + iv.1) ||
          notes.contains ((lowestOf notes + iv.1) % 12 + (lowestOf notes / 12) * 12) then none
      else some (specIntervalEntry notes iv.1)) := by
    unfold suggestIntervals specIntervalEntry lowestOf
    rw [if_neg (by rcases hlen with h | h <;> simp [h])]
  rw [hstep, filterMap_boolCond]
  congr 1
  refine List.filter_congr ?_
  intro iv _
  simp [skipCond, lowestOf]

/-- Witness for C8 (amended): the characterization instantiated at
`[60, 64]`. -/
theorem suggestIntervals_amended_witness :
    suggestIntervals [60, 64] =
      (INTERVAL_ADDITIONS.filter (fun iv => !(decide (skipCond [60, 64] iv.1)))).map
        (fun iv => specIntervalEntry [60, 64] iv.1) :=
  suggestIntervals_amended.1 [60, 64] (by decide)

/-! ## Claim C1: key-detector scoring -/

theorem kdTally_inner (sn : List Nat) : ∀ (notes : List Nat) (q : Nat × Nat),
    notes.foldl (fun q note => ((if sn.contains note then q.1 + 1 else q.1), q.2 + 1)) q =
      (q.1 + (notes.filter (fun n => sn.contains n)).length, q.2 + notes.length) := by
  intro notes
  induction notes with
  | nil => intro q; simp
  | cons a t ih =>
    intro q
    simp only [List.foldl_cons, ih, List.filter_cons, List.length_cons]
    cases h : sn.contains a <;> simp [h] <;> omega

theorem kdTally_eq (st : List KDEntry) (sn : List Nat) :
    kdTally st sn =
      ((st.map (fun ch => (ch.notes.filter (fun n => sn.contains n)).length)).sum,
       (st.map (fun ch => ch.notes.length)).sum) := by
  suffices h : ∀ p, st.foldl
      (fun p c => c.notes.foldl
        (fun q note => ((if sn.contains note then q.1 + 1 else q.1), q.2 + 1)) p) p =
      (p.1 + (st.map (fun ch => (ch.notes.filter (fun n => sn.contains n)).length)).sum,
       p.2 + (st.map (fun ch => ch.notes.length)).sum) by
    have h0 := h (0, 0)
    rw [show ((0, 0) : Nat × Nat).1 = 0 from rfl, show ((0, 0) : Nat × Nat).2 = 0 from rfl,
      Nat.zero_add, Nat.zero_add] at h0
    exact h0
  induction st with
  | nil => intro p; simp
  | cons c t ih =>
    intro p
    simp only [List.foldl_cons]
    rw [ih, kdTally_inner]
    simp only [List.map_cons, List.sum_cons]
    simp [add_assoc]

theorem ite_div_pos (a b : Nat) :
    (if b > 0 then (a : ℚ) / (b : ℚ) else 0) = (a : ℚ) / (b : ℚ) := by
  split
  · rfl
  · next h =>
    have hb : b = 0 := by omega
    subst hb
    simp

/-- The candidate the detect loop builds for `(root, scale)` carries
exactly the specification's score. -/
theorem kdCandidate_eq_spec (st : List KDEntry) (root : Nat) (e : String × List Nat) :
    kdCandidate st root e = ⟨NOTE_NAMES.getD root "", e.1, specKeyScore st root e.2⟩ := by
  unfold kdCandidate specKeyScore scaleSetAt
  simp only [kdTally_eq]
  rw [ite_div_pos]
  cases hl : st.getLast? with
  | none => simp
  | some last =>
    by_cases hr : last.root = root
    · simp [hr]
    · simp [hr]

/-- **C1** — For every key detector with non-empty history, `detect`
returns at most 5 candidates, sorted descending by score (the stable sort
of the full 12 × |SCALES| candidate list); every returned candidate is a
`(root, scale)` pair carrying exactly the specification's score — chord
pitch-class occurrences inside the scale set over total occurrences, plus
0.15 exactly when the most recent entry's root is the candidate root —
and every such pair is scored; in particular, after adding "D Minor",
"G Major", "C Major" in order, the top estimate is root "C", scale
"Major". -/
theorem keyDetect_spec :
    (∀ st : List KDEntry, st ≠ [] →
      (kdDetect st).length ≤ 5
      ∧ (kdDetect st).Sorted kdLE
      ∧ (∀ c ∈ kdDetect st, ∃ r e, r < 12 ∧ e ∈ SCALES ∧
          c = ⟨NOTE_NAMES.getD r "", e.1, specKeyScore st r e.2⟩)
      ∧ (∀ (r : Nat) (e : String × List Nat), r < 12 → e ∈ SCALES →
          (⟨NOTE_NAMES.getD r "", e.1, specKeyScore st r e.2⟩ : KeyCand) ∈ kdCandidates st))
    ∧ (kdDetect kdExampleState).head?.map (fun c => (c.root, c.scale)) = some ("C", "Major") := by
  constructor
  · intro st hne
    have hdet : kdDetect st = ((kdCandidates st).insertionSort kdLE).take 5 := by
      unfold kdDetect
      rw [if_neg (by simpa using hne)]
    refine ⟨?_, ?_, ?_, ?_⟩
    · rw [hdet]
      exact (List.length_take 5 _).le.trans (min_le_left _ _)
    · rw [hdet]
      exact (List.sorted_insertionSort kdLE _).sublist (List.take_sublist _ _)
    · intro c hc
      rw [hdet] at hc
      have hc' : c ∈ kdCandidates st :=
        (List.mem_insertionSort kdLE).mp ((List.take_sublist _ _).mem hc)
      simp only [kdCandidates, List.mem_flatten, List.mem_map, List.mem_range] at hc'
      obtain ⟨_, ⟨r, hr, rfl⟩, hcm⟩ := hc'
      obtain ⟨e, he, rfl⟩ := List.mem_map.mp hcm
      exact ⟨r, e, hr, he, kdCandidate_eq_spec st r e⟩
    · intro r e hr he
      rw [← kdCandidate_eq_spec]
      simp only [kdCandidates, List.mem_flatten, List.mem_map, List.mem_range]
      exact ⟨SCALES.map (kdCandidate st r), ⟨r, hr, rfl⟩, List.mem_map.mpr ⟨e, he, rfl⟩⟩
  · decide

/-- Witness for C1: the general part instantiated at the example state. -/
theorem keyDetect_spec_witness :
    (kdDetect kdExampleState).length ≤ 5 ∧ (kdDetect kdExampleState).Sorted kdLE :=
  ⟨(keyDetect_spec.1 kdExampleState (by decide)).1,
   (keyDetect_spec.1 kdExampleState (by decide)).2.1⟩

/-! ## Claims C3 and C10: the MIDI exporter -/

theorem map_range_getD {β : Type} (l : List Nat) (g : Nat → β) :
    (List.range l.length).map (fun n => g (l.getD n 0)) = l.map g := by
  induction l with
  | nil => rfl
  | cons a t ih =>
    simp only [List.length_cons, List.range_succ_eq_map, List.map_cons, List.map_map,
      Function.comp_def, List.getD_cons_zero, List.getD_cons_succ]
    rw [ih]

/-- The bytes the source's indexed note-on/note-off loops emit for one
chord are exactly the specification's event block. -/
theorem chordBytes_eq_spec (opts : MidiOptions) (oct : Nat) (c : String) :
    chordBytes opts oct c = specChordBlock opts oct c := by
  unfold chordBytes specChordBlock
  cases hv : buildVoicing c opts.voicingStyle oct with
  | none => rfl
  | some notes =>
    cases notes with
    | nil => simp
    | cons n₀ rest =>
      simp only [List.length_cons, Nat.add_one_ne_zero, ite_false, if_neg, not_false_iff]
      rw [show rest.length + 1 = (n₀ :: rest).length from rfl]
      rw [map_range_getD (n₀ :: rest) (fun nt => writeVLQ 0 ++ [0x90, nt % 128, opts.velocity % 128])]
      rw [show (n₀ :: rest).length = rest.length + 1 from rfl, List.range_succ_eq_map]
      simp only [List.map_cons, List.map_map, Function.comp_def, List.getD_cons_zero,
        List.getD_cons_succ, Nat.succ_ne_zero, List.flatten_cons, ite_true, ite_false]
      rw [map_range_getD rest (fun nt => writeVLQ 0 ++ [0x80, nt % 128, 0])]
      simp [TICKS_PER_BEAT, List.append_assoc]

/-- The assembled file of a non-empty progression: header, track chunk
header, tempo event, the per-chord event blocks in order, end of track. -/
theorem export_structure (p : List String) (opts : MidiOptions) (hp : p ≠ []) :
    exportProgressionToMidi p opts =
      fileHeader ++ ([0x4D, 0x54, 0x72, 0x6B] ++ writeUint32 (trackDataOf p opts).length) ++
        (buildTempoEvent opts.bpm ++
          (p.map (specChordBlock opts (resolveOctave opts))).flatten ++ buildEndOfTrack) := by
  have hmap : chordBytes opts (resolveOctave opts) = specChordBlock opts (resolveOctave opts) :=
    funext (chordBytes_eq_spec opts (resolveOctave opts))
  have ht : trackDataOf p opts =
      buildTempoEvent opts.bpm ++
        (p.map (specChordBlock opts (resolveOctave opts))).flatten ++ buildEndOfTrack := by
    unfold trackDataOf
    rw [hmap]
  unfold exportProgressionToMidi
  rw [if_neg (by simpa using hp), ht]

/-- **C3** — For every non-empty progression, the emitted track is the
tempo event followed, for each chord in order, by one note-on per voicing
note with delta-time 0 and note-offs for the same notes whose first
delta-time is `beatsPerChord × 480` and the rest 0, then end-of-track; in
particular exporting ["C Major"] with the default options produces a
buffer starting with the tag "MThd" that contains exactly 3 note-on
(0x90) and 3 note-off (0x80) bytes. -/
theorem exportMidi_event_layout :
    (∀ (p : List String) (opts : MidiOptions), p ≠ [] →
      exportProgressionToMidi p opts =
        fileHeader ++ ([0x4D, 0x54, 0x72, 0x6B] ++ writeUint32 (trackDataOf p opts).length) ++
          (buildTempoEvent opts.bpm ++
            (p.map (specChordBlock opts (resolveOctave opts))).flatten ++ buildEndOfTrack))
    ∧ (exportProgressionToMidi ["C Major"] {}).take 4 = [0x4D, 0x54, 0x68, 0x64]
    ∧ (exportProgressionToMidi ["C Major"] {}).count 0x90 = 3
    ∧ (exportProgressionToMidi ["C Major"] {}).count 0x80 = 3
    ∧ specChordBlock {} 4 "C Major" =
        (writeVLQ 0 ++ [0x90, 60, 100]) ++ (writeVLQ 0 ++ [0x90, 64, 100]) ++
          (writeVLQ 0 ++ [0x90, 67, 100]) ++ (writeVLQ (2 * 480) ++ [0x80, 60, 0]) ++
          (writeVLQ 0 ++ [0x80, 64, 0]) ++ (writeVLQ 0 ++ [0x80, 67, 0]) := by
  refine ⟨export_structure, by decide, by decide, by decide, by decide⟩

/-- Witness for C3: the layout instantiated at ["C Major"] with default
options. -/
theorem exportMidi_event_layout_witness :
    exportProgressionToMidi ["C Major"] {} =
      fileHeader ++ ([0x4D, 0x54, 0x72, 0x6B] ++ writeUint32 (trackDataOf ["C Major"] {}).length) ++
        (buildTempoEvent (120 : Nat) ++
          ((["C Major"] : List String).map (specChordBlock {} (resolveOctave {}))).flatten ++
          buildEndOfTrack) :=
  exportMidi_event_layout.1 ["C Major"] {} (by decide)

/-- **C10** — For every non-empty progression — even one in which no label
resolves to a voicing — the export still returns a non-empty buffer with
the file header, the tempo meta event and the end-of-track meta event;
unresolvable chords are skipped silently and the zero-length buffer is
reserved for the empty progression. -/
theorem exportMidi_skip_unresolvable :
    ∀ (p : List String) (opts : MidiOptions), p ≠ [] →
      exportProgressionToMidi p opts ≠ []
      ∧ (exportProgressionToMidi p opts).take 4 = [0x4D, 0x54, 0x68, 0x64]
      ∧ buildTempoEvent opts.bpm <:+: exportProgressionToMidi p opts
      ∧ buildEndOfTrack <:+ exportProgressionToMidi p opts
      ∧ ((∀ c ∈ p, buildVoicing c opts.voicingStyle (resolveOctave opts) = none) →
          exportProgressionToMidi p opts =
            fileHeader ++ [0x4D, 0x54, 0x72, 0x6B] ++ writeUint32 11 ++
              buildTempoEvent opts.bpm ++ buildEndOfTrack) := by
  intro p opts hp
  have hs := export_structure p opts hp
  refine ⟨?_, ?_, ?_, ?_, ?_⟩
  · rw [hs]
    simp [fileHeader, writeUint32, writeUint16]
  · rw [hs]
    simp [fileHeader, writeUint32, writeUint16]
  · exact ⟨fileHeader ++ ([0x4D, 0x54, 0x72, 0x6B] ++ writeUint32 (trackDataOf p opts).length),
      (p.map (specChordBlock opts (resolveOctave opts))).flatten ++ buildEndOfTrack,
      by rw [hs]; simp [List.append_assoc]⟩
  · exact ⟨fileHeader ++ ([0x4D, 0x54, 0x72, 0x6B] ++ writeUint32 (trackDataOf p opts).length) ++
      (buildTempoEvent opts.bpm ++ (p.map (specChordBlock opts (resolveOctave opts))).flatten),
      by rw [hs]; simp [List.append_assoc]⟩
  · intro hall
    have hflat : (p.map (specChordBlock opts (resolveOctave opts))).flatten = [] := by
      rw [List.flatten_eq_nil_iff]
      intro l hl
      obtain ⟨c, hc, rfl⟩ := List.mem_map.mp hl
      unfold specChordBlock
      rw [hall c hc]
    have hlen : (trackDataOf p opts).length = 11 := by
      unfold trackDataOf
      have hmap : chordBytes opts (resolveOctave opts) = specChordBlock opts (resolveOctave opts) :=
        funext (chordBytes_eq_spec opts (resolveOctave opts))
      rw [hmap, hflat]
      simp [buildTempoEvent, buildEndOfTrack]
    rw [hs, hflat, hlen]
    simp [List.append_assoc]

/-- Witness for C10: a progression whose single label is unparsable. -/
theorem exportMidi_skip_unresolvable_witness :
    exportProgressionToMidi ["nonsense"] {} ≠ []
    ∧ (exportProgressionToMidi ["nonsense"] {}).take 4 = [0x4D, 0x54, 0x68, 0x64] :=
  ⟨(exportMidi_skip_unresolvable ["nonsense"] {} (by decide)).1,
   (exportMidi_skip_unresolvable ["nonsense"] {} (by decide)).2.1⟩

/-! ## Claim C7: string plumbing for compound modal labels -/

theorem intercalate_cons_two {α : Type} (sep a b : List α) (t : List (List α)) :
    sep.intercalate (a :: b :: t) = a ++ sep ++ sep.intercalate (b :: t) := by
  simp [List.intercalate]

theorem splitOnP_space_intercalate :
    ∀ ls : List (List Char), ls ≠ [] → (∀ l ∈ ls, ' ' ∉ l) →
      ([' '].intercalate ls).splitOnP (· == ' ') = ls := by
  intro ls
  induction ls with
  | nil => intro h; exact absurd rfl h
  | cons a tl ih =>
    intro _ hx
    cases tl with
    | nil =>
      rw [show [' '].intercalate [a] = a by simp [List.intercalate]]
      refine List.splitOnP_eq_single _ _ ?_
      intro y hy hb
      have hy' : y = ' ' := by simpa using hb
      exact hx a (by simp) (hy' ▸ hy)
    | cons b tl' =>
      rw [intercalate_cons_two, List.append_assoc,
        show ([' '] ++ [' '].intercalate (b :: tl') = ' ' :: [' '].intercalate (b :: tl')) from rfl]
      rw [List.splitOnP_first _ _ ?_ ' ' (by simp) _]
      · rw [ih (by simp) (fun l hl => hx l (by simp [hl]))]
      · intro y hy hb
        have hy' : y = ' ' := by simpa using hb
        exact hx a (by simp) (hy' ▸ hy)

theorem toList_mk (l : List Char) : (String.mk l).toList = l := rfl

theorem mk_toList (s : String) : String.mk s.toList = s := rfl

theorem toList_ne_nil {s : String} (h : s ≠ "") : s.toList ≠ [] := by
  cases s with
  | mk data =>
    intro hd
    exact h (by simp [String.ext_iff] at hd ⊢; exact hd)

/-- `trim + split(/\s+/)` recovers the tokens of a space-joined label whose
tokens are non-empty and space-free. -/
theorem wsTokens_jsJoin (parts : List String) (hne : parts ≠ [])
    (h1 : ∀ s ∈ parts, s ≠ "") (h2 : ∀ s ∈ parts, ' ' ∉ s.toList) :
    wsTokens (jsJoin parts) = parts := by
  unfold wsTokens jsJoin
  rw [toList_mk, splitOnP_space_intercalate _ (by simpa using hne) ?side]
  case side =>
    intro l hl
    obtain ⟨s, hs, rfl⟩ := List.mem_map.mp hl
    exact h2 s hs
  rw [List.filter_eq_self.mpr ?nonempty]
  case nonempty =>
    intro l hl
    obtain ⟨s, hs, rfl⟩ := List.mem_map.mp hl
    simpa using toList_ne_nil (h1 s hs)
  rw [List.map_map, show (String.mk ∘ String.toList) = id from funext (fun s => mk_toList s),
    List.map_id]

/-- Plain `split(' ')` recovers the tokens of a space-joined string whose
tokens are space-free. -/
theorem jsSplit_jsJoin (parts : List String) (hne : parts ≠ [])
    (h2 : ∀ s ∈ parts, ' ' ∉ s.toList) :
    jsSplit (jsJoin parts) = parts := by
  unfold jsSplit jsJoin
  rw [toList_mk, splitOnP_space_intercalate _ (by simpa using hne) ?side]
  case side =>
    intro l hl
    obtain ⟨s, hs, rfl⟩ := List.mem_map.mp hl
    exact h2 s hs
  rw [List.map_map, show (String.mk ∘ String.toList) = id from funext (fun s => mk_toList s),
    List.map_id]

theorem jsJoin_singleton (s : String) : jsJoin [s] = s := by
  unfold jsJoin
  rw [List.map_cons, List.map_nil, show [' '].intercalate [s.toList] = s.toList by
    simp [List.intercalate]]
  exact mk_toList s

theorem jsJoin_cons (a : String) (l : List String) (h : l ≠ []) :
    jsJoin (a :: l) = a ++ " " ++ jsJoin l := by
  cases l with
  | nil => exact absurd rfl h
  | cons b t =>
    unfold jsJoin
    rw [List.map_cons, List.map_cons, intercalate_cons_two]
    cases a with
    | mk data => rfl

theorem tails_any_space {l : List Char} (h : ' ' ∈ l) :
    l.tails.any (fun t => [' '].isPrefixOf t) = true := by
  induction l with
  | nil => cases h
  | cons c t ih =>
    rw [List.tails_cons, List.any_cons]
    rcases List.mem_cons.mp h with hc | hmem
    · subst hc
      simp [List.isPrefixOf]
    · rw [ih hmem, Bool.or_true]

theorem tails_any_space_false : ∀ {l : List Char}, ' ' ∉ l →
    l.tails.any (fun t => [' '].isPrefixOf t) = false := by
  intro l
  induction l with
  | nil => intro _; rfl
  | cons c t ih =>
    intro h
    rw [List.tails_cons, List.any_cons, ih (fun hm => h (List.mem_cons_of_mem c hm))]
    have hc : c ≠ ' ' := fun he => h (he ▸ List.mem_cons_self c t)
    simp [List.isPrefixOf, Ne.symm hc]

theorem jsIncludes_space {s : String} (h : ' ' ∈ s.toList) : jsIncludes s " " = true := by
  unfold jsIncludes
  exact tails_any_space h

theorem jsIncludes_space_false {s : String} (h : ' ' ∉ s.toList) : jsIncludes s " " = false := by
  unfold jsIncludes
  exact tails_any_space_false h

theorem space_mem_intercalate_two (a b : List Char) (t : List (List Char)) :
    ' ' ∈ [' '].intercalate (a :: b :: t) := by
  rw [intercalate_cons_two]
  simp

theorem append_space_inj : ∀ {l₁ l₂ r₁ r₂ : List Char}, ' ' ∉ l₁ → ' ' ∉ l₂ →
    l₁ ++ ' ' :: r₁ = l₂ ++ ' ' :: r₂ → l₁ = l₂ ∧ r₁ = r₂ := by
  intro l₁
  induction l₁ with
  | nil =>
    intro l₂ r₁ r₂ _ h₂ he
    cases l₂ with
    | nil => simpa using he
    | cons c t =>
      simp only [List.nil_append, List.cons_append, List.cons.injEq] at he
      exact absurd (he.1 ▸ List.mem_cons_self c t) h₂
  | cons c t ih =>
    intro l₂ r₁ r₂ h₁ h₂ he
    cases l₂ with
    | nil =>
      simp only [List.nil_append, List.cons_append, List.cons.injEq] at he
      exact absurd (he.1.symm ▸ List.mem_cons_self c t) h₁
    | cons d u =>
      simp only [List.cons_append, List.cons.injEq] at he
      obtain ⟨rfl, he'⟩ := he
      have := ih (fun hm => h₁ (List.mem_cons_of_mem _ hm))
        (fun hm => h₂ (List.mem_cons_of_mem _ hm)) he'
      exact ⟨by rw [this.1], this.2⟩

theorem noteName_facts : ∀ r ∈ NOTE_NAMES,
    ' ' ∉ r.toList ∧ r ≠ "" ∧ (noteToPC r).isSome = true := by decide

theorem stack_facts : ∀ m ∈ MODAL_STACK_EXTENSIONS,
    ' ' ∉ m.toList ∧ m ≠ "" ∧ getIntervalsForQuality m = none
    ∧ QUALITY_DEPENDENT_EXTENSIONS.contains m = false
    ∧ MODAL_STACK_EXTENSIONS.contains m = true := by decide

theorem chord_values_space : ∀ e ∈ CHORD_INTERVALS,
    e.2 = "m7b5 (Half-Dim)" ∨ ' ' ∉ e.2.toList := by decide

theorem toList_jsJoin_cons_cons (q m : String) (tl : List String) :
    (jsJoin (q :: m :: tl)).toList =
      q.toList ++ ' ' :: [' '].intercalate ((m :: tl).map String.toList) := by
  unfold jsJoin
  rw [toList_mk, List.map_cons, List.map_cons, intercalate_cons_two]
  simp [List.append_assoc]

/-- Direct dictionary lookup of a space-joined compound quality fails: the
compound contains a space, and the only spaced dictionary value,
"m7b5 (Half-Dim)", has first word "m7b5", which is not a dictionary value
and hence not `q`. -/
theorem lookup_join_fails {q : String} {iv : List Nat}
    (hlookup : getIntervalsForQuality q = some iv) (hqs : ' ' ∉ q.toList)
    (m : String) (tl : List String) :
    getIntervalsForQuality (jsJoin (q :: m :: tl)) = none := by
  unfold getIntervalsForQuality
  rw [Option.map_eq_none', List.find?_eq_none]
  intro e he hb
  have heq : e.2 = jsJoin (q :: m :: tl) := by simpa using hb
  have hsp : ' ' ∈ (jsJoin (q :: m :: tl)).toList := by
    rw [toList_jsJoin_cons_cons]
    simp
  rcases chord_values_space e he with hm | hnos
  · rw [hm] at heq
    have htl := congrArg String.toList heq
    rw [toList_jsJoin_cons_cons] at htl
    rw [show ("m7b5 (Half-Dim)" : String).toList =
      ("m7b5" : String).toList ++ ' ' :: ("(Half-Dim)" : String).toList by decide] at htl
    have hql : ("m7b5" : String).toList = q.toList :=
      (append_space_inj (by decide) hqs htl).1
    have hq : q = "m7b5" := by
      rw [← mk_toList q, ← hql]
      rfl
    rw [hq] at hlookup
    rw [show getIntervalsForQuality "m7b5" = none by decide] at hlookup
    cases hlookup
  · rw [← heq] at hsp
    exact hnos hsp

/-- **C7** — For every well-formed modal-voicing base label
`<root> <quality> <mod₁> … <modₙ>` (root a note name, quality a dictionary
quality without a third, every modᵢ a stackable modal modifier) and every
stackable modifier, `applyExtension` appends the modifier token at the end
of the compound quality string, retains the previously applied tokens in
order, and does not duplicate a token that is already present; in
particular "C Sus4" + add2 → "C Sus4 add2", then + add6 →
"C Sus4 add2 add6", and re-applying add2 or add6 returns the same label. -/
theorem applyExtension_modal_stacking :
    (∀ (r q extType : String) (iv : List Nat) (mods : List String),
      r ∈ NOTE_NAMES →
      getIntervalsForQuality q = some iv → 3 ∉ iv → 4 ∉ iv →
      ' ' ∉ q.toList → q ≠ "" →
      (∀ m ∈ mods, m ∈ MODAL_STACK_EXTENSIONS) →
      extType ∈ MODAL_STACK_EXTENSIONS →
      applyExtension (jsJoin (r :: q :: mods)) extType =
        some (jsJoin (r :: q :: (if extType ∈ mods then mods else mods ++ [extType]))))
    ∧ applyExtension "C Sus4" "add2" = some "C Sus4 add2"
    ∧ applyExtension "C Sus4 add2" "add6" = some "C Sus4 add2 add6"
    ∧ applyExtension "C Sus4 add2 add6" "add2" = some "C Sus4 add2 add6"
    ∧ applyExtension "C Sus4 add2 add6" "add6" = some "C Sus4 add2 add6" := by
  refine ⟨?_, by decide, by decide, by decide, by decide⟩
  intro r q extType iv mods hr hlookup h3 h4 hqs hqe hmods hext
  obtain ⟨hrs, hre, hrsome⟩ := noteName_facts r hr
  obtain ⟨pc, hpc⟩ := Option.isSome_iff_exists.mp hrsome
  obtain ⟨hes, hee, helook, heqd, hems⟩ := stack_facts extType hext
  have hall_ne : ∀ s ∈ r :: q :: mods, s ≠ "" := by
    intro s hs
    rcases List.mem_cons.mp hs with rfl | hs'
    · exact hre
    rcases List.mem_cons.mp hs' with rfl | hs''
    · exact hqe
    · exact (stack_facts s (hmods s hs'')).2.1
  have hall_sp : ∀ s ∈ r :: q :: mods, ' ' ∉ s.toList := by
    intro s hs
    rcases List.mem_cons.mp hs with rfl | hs'
    · exact hrs
    rcases List.mem_cons.mp hs' with rfl | hs''
    · exact hqs
    · exact (stack_facts s (hmods s hs'')).1
  have htok : wsTokens (jsJoin (r :: q :: mods)) = r :: q :: mods :=
    wsTokens_jsJoin _ (by simp) hall_ne hall_sp
  have hparse : parseChordOrKey (jsJoin (r :: q :: mods)) = some ⟨r, jsJoin (q :: mods), pc⟩ := by
    unfold parseChordOrKey parseChord
    rw [htok]
    simp [hpc]
  have hqstack : ∀ m ∈ MODAL_STACK_EXTENSIONS, q ≠ m := by
    intro m hm he
    have hn := (stack_facts m hm).2.2.1
    rw [← he, hlookup] at hn
    cases hn
  have hqext : q ≠ extType := hqstack extType hext
  have hresolve : resolveBaseIntervals (jsJoin (q :: mods)) = some iv := by
    cases mods with
    | nil =>
      rw [jsJoin_singleton]
      unfold resolveBaseIntervals
      rw [hlookup]
    | cons m tl =>
      have hfail := lookup_join_fails hlookup hqs m tl
      have hsplit : jsSplit (jsJoin (q :: m :: tl)) = q :: m :: tl :=
        jsSplit_jsJoin _ (by simp) (fun s hs => hall_sp s (List.mem_cons_of_mem r hs))
      have hall : (m :: tl).all (fun x => MODAL_STACK_EXTENSIONS.contains x) = true := by
        rw [List.all_eq_true]
        intro x hx
        exact (stack_facts x (hmods x hx)).2.2.2.2
      unfold resolveBaseIntervals
      rw [hfail, hsplit]
      simp only [List.length_cons, List.headD_cons, List.tail_cons, hall]
      rw [if_pos (by omega)]
      rw [hlookup]
      simp
  have hc3 : iv.contains 3 = false := by simpa using h3
  have hc4 : iv.contains 4 = false := by simpa using h4
  unfold applyExtension
  rw [hparse]
  simp only [hee, if_neg, ite_false, hresolve, hc3, hc4, Bool.not_false, Bool.and_self,
    ite_true, heqd, hems, Bool.false_eq_true, if_false]
  cases mods with
  | nil =>
    rw [jsJoin_singleton, jsIncludes_space_false hqs]
    simp only [Bool.false_eq_true, ite_false]
    rw [show (([q] : List String).contains extType) = false by simp [Ne.symm hqext]]
    simp only [Bool.false_eq_true, ite_false, List.not_mem_nil, List.nil_append]
    rw [jsJoin_cons r (q :: [extType]) (by simp)]
    rfl
  | cons m tl =>
    have hspmem : ' ' ∈ (jsJoin (q :: m :: tl)).toList := by
      rw [toList_jsJoin_cons_cons]
      simp
    have hsplit : jsSplit (jsJoin (q :: m :: tl)) = q :: m :: tl :=
      jsSplit_jsJoin _ (by simp) (fun s hs => hall_sp s (List.mem_cons_of_mem r hs))
    rw [jsIncludes_space hspmem]
    simp only [ite_true, hsplit, List.contains_cons]
    rw [show (extType == q) = false from beq_eq_false_iff_ne.mpr (Ne.symm hqext)]
    simp only [Bool.false_or]
    by_cases hmem : extType ∈ m :: tl
    · have hcm : (extType == m || tl.contains extType) = true := by
        rw [← List.contains_cons]
        simpa using hmem
      rw [hcm]
      simp only [ite_true]
      rw [if_pos hmem, jsJoin_cons r (q :: m :: tl) (by simp)]
    · have hcm : (extType == m || tl.contains extType) = false := by
        rw [← List.contains_cons]
        simp [hmem]
      rw [hcm]
      simp only [Bool.false_eq_true, ite_false]
      rw [if_neg hmem, jsJoin_cons r (q :: (m :: tl ++ [extType])) (by simp)]
      simp

/-- Witness for C7: stacking add6 onto the compound label "C Sus4 add2". -/
theorem applyExtension_modal_stacking_witness :
    applyExtension (jsJoin ["C", "Sus4", "add2"]) "add6" =
      some (jsJoin ("C" :: "Sus4" ::
        (if "add6" ∈ ["add2"] then ["add2"] else ["add2"] ++ ["add6"]))) :=
  applyExtension_modal_stacking.1 "C" "Sus4" "add6" [0, 5, 7] ["add2"]
    (by decide) (by decide) (by decide) (by decide) (by decide) (by decide)
    (by decide) (by decide)

/-! ## Claim C2: modal context detection -/

theorem allCombos_valid : ∀ c ∈ allCombos,
    scaleLookup c.2 = some ((scaleLookup c.2).getD []) ∧
      ¬(((scaleLookup c.2).getD []).length < 7) := by decide

theorem allCombos_mem0 : ((0, "Ionian") : Nat × String) ∈ allCombos := by decide

/-- One step of the best-tracking loop either keeps the state (when the
fresh score does not beat it) or installs the fresh combo's score and
result. -/
theorem comboStep_char (parsed : List ParsedChord) (s : Int × Option ModalResult)
    (c : Nat × String)
    (hsc : scaleLookup c.2 = some ((scaleLookup c.2).getD []))
    (hlen : ¬(((scaleLookup c.2).getD []).length < 7)) :
    (comboStep parsed s c = s ∧ (comboScore parsed c : Int) ≤ s.1) ∨
      (comboStep parsed s c = ((comboScore parsed c : Int), some (comboResult parsed c)) ∧
        s.1 ≤ (comboScore parsed c : Int)) := by
  unfold comboStep
  rw [hsc]
  simp only [if_neg hlen]
  cases hrep : comboReplace parsed s (comboScore parsed c) with
  | true =>
    right
    refine ⟨by simp, ?_⟩
    unfold comboReplace at hrep
    simp only [Bool.or_eq_true, Bool.and_eq_true, beq_iff_eq, decide_eq_true_eq] at hrep
    rcases hrep with hlt | ⟨heq, _⟩
    · exact le_of_lt hlt
    · omega
  | false =>
    left
    refine ⟨by simp, ?_⟩
    unfold comboReplace at hrep
    have hor := Bool.or_eq_false_iff.mp hrep
    have := hor.1
    simp only [decide_eq_false_iff_not] at this
    exact le_of_not_lt this

/-- Invariant of the best-tracking fold: the final best score dominates
every processed combo and the starting score, and the final state is
either untouched or records some processed combo's score and result. -/
theorem comboFold_spec (parsed : List ParsedChord) :
    ∀ (L : List (Nat × String)) (s : Int × Option ModalResult),
      (∀ c ∈ L, scaleLookup c.2 = some ((scaleLookup c.2).getD []) ∧
        ¬(((scaleLookup c.2).getD []).length < 7)) →
      (∀ c ∈ L, (comboScore parsed c : Int) ≤ (L.foldl (comboStep parsed) s).1)
      ∧ s.1 ≤ (L.foldl (comboStep parsed) s).1
      ∧ ((L.foldl (comboStep parsed) s) = s ∨
          ∃ c ∈ L, (L.foldl (comboStep parsed) s).1 = (comboScore parsed c : Int) ∧
            (L.foldl (comboStep parsed) s).2 = some (comboResult parsed c)) := by
  intro L
  induction L with
  | nil => exact fun s _ => ⟨by simp, le_refl _, Or.inl rfl⟩
  | cons c L ih =>
    intro s hval
    obtain ⟨hsc, hlen⟩ := hval c (List.mem_cons_self c L)
    obtain ⟨ih1, ih2, ih3⟩ :=
      ih (comboStep parsed s c) (fun c' hc' => hval c' (List.mem_cons_of_mem c hc'))
    rw [List.foldl_cons]
    rcases comboStep_char parsed s c hsc hlen with ⟨hkeep, hle⟩ | ⟨hrepl, hle⟩
    · refine ⟨?_, ?_, ?_⟩
      · intro c' hc'
        rcases List.mem_cons.mp hc' with rfl | hc''
        · calc (comboScore parsed c' : Int) ≤ s.1 := hle
            _ = (comboStep parsed s c').1 := by rw [hkeep]
            _ ≤ _ := ih2
        · exact ih1 c' hc''
      · calc s.1 = (comboStep parsed s c).1 := by rw [hkeep]
          _ ≤ _ := ih2
      · rcases ih3 with heq | ⟨c', hc', h1, h2⟩
        · rw [heq, hkeep]
          exact Or.inl rfl
        · exact Or.inr ⟨c', List.mem_cons_of_mem c hc', h1, h2⟩
    · refine ⟨?_, ?_, ?_⟩
      · intro c' hc'
        rcases List.mem_cons.mp hc' with rfl | hc''
        · calc (comboScore parsed c' : Int) = (comboStep parsed s c').1 := by rw [hrepl]
            _ ≤ _ := ih2
        · exact ih1 c' hc''
      · calc s.1 ≤ (comboScore parsed c : Int) := hle
          _ = (comboStep parsed s c).1 := by rw [hrepl]
          _ ≤ _ := ih2
      · rcases ih3 with heq | ⟨c', hc', h1, h2⟩
        · refine Or.inr ⟨c, List.mem_cons_self c L, ?_, ?_⟩
          · rw [heq, hrepl]
          · rw [heq, hrepl]
        · exact Or.inr ⟨c', List.mem_cons_of_mem c hc', h1, h2⟩

/-- The fold over all 84 combinations ends holding the first-encountered
maximal combination's score and result. -/
theorem fold_best (parsed : List ParsedChord) :
    ∃ cm ∈ allCombos,
      (allCombos.foldl (comboStep parsed) (-1, none)).1 = (comboScore parsed cm : Int) ∧
      (allCombos.foldl (comboStep parsed) (-1, none)).2 = some (comboResult parsed cm) ∧
      ∀ c' ∈ allCombos, comboScore parsed c' ≤ comboScore parsed cm := by
  obtain ⟨hall, hinit, hdisj⟩ := comboFold_spec parsed allCombos (-1, none) allCombos_valid
  rcases hdisj with heq | ⟨cm, hcm, h1, h2⟩
  · exfalso
    have hle := hall (0, "Ionian") allCombos_mem0
    rw [heq] at hle
    have h0 : (0 : Int) ≤ (comboScore parsed (0, "Ionian") : Int) := Int.ofNat_nonneg _
    simp only [] at hle
    omega
  · refine ⟨cm, hcm, h1, h2, fun c' hc' => ?_⟩
    have := hall c' hc'
    rw [h1] at this
    exact_mod_cast this

/-- The Boolean triad-match test is the propositional one. -/
theorem triadMatch_iff (si : List Nat) (t : Nat) (ch : ParsedChord) :
    ((diatonicTriads si t).any
        (fun dc => dc.rootPC == ch.rootPC && dc.quality == ch.quality) = true) ↔
      ∃ dc ∈ diatonicTriads si t, dc.rootPC = ch.rootPC ∧ dc.quality = ch.quality := by
  rw [List.any_eq_true]
  constructor
  · rintro ⟨dc, hdc, hp⟩
    exact ⟨dc, hdc, by simpa using hp⟩
  · rintro ⟨dc, hdc, h1, h2⟩
    exact ⟨dc, hdc, by simp [h1, h2]⟩

theorem comboScore_eq_zero_iff (parsed : List ParsedChord) (c : Nat × String) :
    comboScore parsed c = 0 ↔
      ∀ pc ∈ parsed, ¬∃ dc ∈ diatonicTriads ((scaleLookup c.2).getD []) c.1,
        dc.rootPC = pc.rootPC ∧ dc.quality = pc.quality := by
  unfold comboScore
  rw [List.countP_eq_zero]
  constructor
  · intro H pc hpc hex
    exact absurd ((triadMatch_iff _ _ _).mpr hex) (by simpa using H pc hpc)
  · intro H pc hpc
    simpa using fun hex => H pc hpc ((triadMatch_iff _ _ _).mp hex)

theorem comboScore_pos_iff (parsed : List ParsedChord) (c : Nat × String) :
    0 < comboScore parsed c ↔
      ∃ pc ∈ parsed, ∃ dc ∈ diatonicTriads ((scaleLookup c.2).getD []) c.1,
        dc.rootPC = pc.rootPC ∧ dc.quality = pc.quality := by
  unfold comboScore
  rw [List.countP_pos]
  constructor
  · rintro ⟨pc, hpc, hp⟩
    exact ⟨pc, hpc, (triadMatch_iff _ _ _).mp hp⟩
  · rintro ⟨pc, hpc, hex⟩
    exact ⟨pc, hpc, (triadMatch_iff _ _ _).mpr hex⟩

theorem forall_parsed_iff (P : ParsedChord → Prop) (h : List String) :
    (∀ label ∈ h, ∀ pc, parseChord label = some pc → P pc) ↔
      ∀ pc ∈ h.filterMap parseChord, P pc := by
  constructor
  · intro H pc hpc
    obtain ⟨label, hl, hp⟩ := List.mem_filterMap.mp hpc
    exact H label hl pc hp
  · intro H label hl pc hp
    exact H pc (List.mem_filterMap.mpr ⟨label, hl, hp⟩)

/-- Counterexample to **C2** as stated: `"Z Major"` fails to parse, so the
history `["Z Major", "C Major"]` has one parsed chord; the source divides
the match count by the number of *parsed* chords and reports confidence 1,
while the claim's formula — match count over the *history length*, rounded
to 2 decimals — gives 0.5. -/
theorem detectMode_confidence_counterexample :
    detectModeFromChords ["Z Major", "C Major"] = some ⟨"C", "Ionian", 1⟩
    ∧ parseChord "Z Major" = none
    ∧ comboScore ((["Z Major", "C Major"] : List String).filterMap parseChord) (0, "Ionian") = 1
    ∧ round2 ((1 : ℚ) / ((["Z Major", "C Major"] : List String).length : ℚ)) = 1 / 2
    ∧ (1 : ℚ) ≠ 1 / 2 := by
  refine ⟨by decide, by decide, by decide, by decide, by decide⟩

/-- **C2 (amended)** — `detectModeFromChords` returns none exactly when no
input chord's (root, quality) equals a diatonic triad of any of the
12 tonics × 7 church modes; otherwise it returns a best-scoring
(tonic, mode) whose confidence is the match count divided by the number of
*successfully parsed* chords (the history length whenever every label
parses), rounded to 2 decimals.  The concrete examples of the claim hold:
["D Minor","G Major","C Major"] → C Ionian and
["C Minor","F Major","A# Major"] → C Dorian, both with confidence 1. -/
theorem detectMode_spec_amended :
    (∀ h : List String,
      (detectModeFromChords h = none ↔
        ∀ label ∈ h, ∀ pc, parseChord label = some pc → ¬chordMatchesSomeMode pc))
    ∧ (∀ (h : List String) (res : ModalResult), detectModeFromChords h = some res →
        ∃ c ∈ allCombos, res = comboResult (h.filterMap parseChord) c ∧
          ∀ c' ∈ allCombos,
            comboScore (h.filterMap parseChord) c' ≤ comboScore (h.filterMap parseChord) c)
    ∧ (∀ (parsed : List ParsedChord) (c : Nat × String), parsed ≠ [] →
        (comboResult parsed c).confidence =
          round2 ((comboScore parsed c : ℚ) / (parsed.length : ℚ)))
    ∧ detectModeFromChords ["D Minor", "G Major", "C Major"] = some ⟨"C", "Ionian", 1⟩
    ∧ detectModeFromChords ["C Minor", "F Major", "A# Major"] = some ⟨"C", "Dorian", 1⟩ := by
  refine ⟨?_, ?_, ?_, by decide, by decide⟩
  · intro h
    unfold detectModeFromChords
    by_cases h0 : h.length = 0
    · rw [if_pos h0]
      have hnil : h = [] := List.length_eq_zero.mp h0
      subst hnil
      simp
    · rw [if_neg h0]
      by_cases hp0 : (h.filterMap parseChord).length = 0
      · rw [if_pos hp0]
        have hnil : h.filterMap parseChord = [] := List.length_eq_zero.mp hp0
        constructor
        · intro _ label hl pc hpc
          exact absurd (hnil ▸ List.mem_filterMap.mpr ⟨label, hl, hpc⟩) (List.not_mem_nil pc)
        · intro _
          rfl
      · rw [if_neg hp0]
        obtain ⟨cm, hcm, h1, h2, hmax⟩ := fold_best (h.filterMap parseChord)
        rw [forall_parsed_iff]
        constructor
        · intro hnone pc hpc hmatch
          by_cases hpos :
              (allCombos.foldl (comboStep (h.filterMap parseChord)) (-1, none)).1 > 0
          · rw [if_pos hpos, h2] at hnone
            cases hnone
          · obtain ⟨c, hc, hdc⟩ := hmatch
            have hscpos : 0 < comboScore (h.filterMap parseChord) c :=
              (comboScore_pos_iff _ c).mpr ⟨pc, hpc, hdc⟩
            have : (0 : Int) < (comboScore (h.filterMap parseChord) cm : Int) := by
              have := hmax c hc
              omega
            rw [← h1] at this
            exact hpos this
        · intro hnomatch
          have hzero : comboScore (h.filterMap parseChord) cm = 0 := by
            rw [comboScore_eq_zero_iff]
            intro pc hpc hex
            exact hnomatch pc hpc ⟨cm, hcm, hex⟩
          rw [if_neg (by rw [h1, hzero]; omega)]
  · intro h res hres
    unfold detectModeFromChords at hres
    by_cases h0 : h.length = 0
    · rw [if_pos h0] at hres
      cases hres
    · rw [if_neg h0] at hres
      by_cases hp0 : (h.filterMap parseChord).length = 0
      · rw [if_pos hp0] at hres
        cases hres
      · rw [if_neg hp0] at hres
        obtain ⟨cm, hcm, h1, h2, hmax⟩ := fold_best (h.filterMap parseChord)
        by_cases hpos :
            (allCombos.foldl (comboStep (h.filterMap parseChord)) (-1, none)).1 > 0
        · rw [if_pos hpos, h2] at hres
          exact ⟨cm, hcm, (Option.some.injEq _ _ ▸ hres).symm, hmax⟩
        · rw [if_neg hpos] at hres
          cases hres
  · intro parsed c hpne
    have hlp : parsed.length > 0 := by
      cases parsed with
      | nil => exact absurd rfl hpne
      | cons a t => simp
    show round2 (if parsed.length > 0 then (comboScore parsed c : ℚ) / (parsed.length : ℚ)
      else 0) = round2 ((comboScore parsed c : ℚ) / (parsed.length : ℚ))
    rw [if_pos hlp]

/-- Witness for C2 (amended): the best-scoring characterization
instantiated on the D-minor/G-major/C-major history. -/
theorem detectMode_spec_amended_witness :
    ∃ c ∈ allCombos,
      (⟨"C", "Ionian", 1⟩ : ModalResult) =
          comboResult ((["D Minor", "G Major", "C Major"] : List String).filterMap parseChord) c ∧
        ∀ c' ∈ allCombos,
          comboScore ((["D Minor", "G Major", "C Major"] : List String).filterMap parseChord) c' ≤
            comboScore ((["D Minor", "G Major", "C Major"] : List String).filterMap parseChord) c :=
  detectMode_spec_amended.2.1 ["D Minor", "G Major", "C Major"] ⟨"C", "Ionian", 1⟩ (by decide)

end HarmonicCompanion
